import Mathlib

/-!
Shallow embedding of src/main.py (SystemMonitorApp), the single source file of
the SystemMonitor repository, together with proofs about the metrics sampling
and rolling-window aggregation core described in spec.md.

Conventions of the embedding:
* Python floats are modelled as rationals (ℚ).
* A Python expression that may raise an uncaught exception is modelled as an
  Option-valued function; none means the exception propagates to the caller.
* numpy arrays holding the rolling windows are modelled as Lists; np.roll and
  the trailing-index assignment are modelled element for element.
-/

/-- One entry of the per-process snapshot built in update_process_info
(src/main.py lines 100-102): the Python tuple
(p.info[name], p.info[cpu_percent], p.memory_info().rss / 1024 ** 2). -/
structure ProcEntry where
  name : String
  cpu : ℚ
  memory : ℚ
deriving DecidableEq, Repr

/-- A process as yielded by psutil.process_iter in update_process_info.
memory_info models the result of the detail fetch p.memory_info().rss:
none means the process vanished between enumeration and the fetch, so the
fetch raises psutil.NoSuchProcess (which src/main.py does not catch). -/
structure RawProc where
  name : String
  cpu_percent : ℚ
  memory_info : Option ℚ
deriving DecidableEq, Repr

/-! ### Ring buffer sampler (update_system_info, src/main.py lines 86-90)

self.cpu_usage_history = np.roll(self.cpu_usage_history, -1)
self.cpu_usage_history[-1] = cpu_usage
and the analogous two lines for memory_usage_history. -/

/-- np.roll(w, -1): cyclic shift of the array one position to the left. -/
def np_roll_neg1 (w : List ℚ) : List ℚ := w.drop 1 ++ w.take 1

/-- One push: history = np.roll(history, -1) followed by history[-1] = v.
The assignment history[-1] = v replaces the last element; on an empty array it
raises IndexError, modelled by none. -/
def push (w : List ℚ) (v : ℚ) : Option (List ℚ) :=
  if np_roll_neg1 w = [] then none else some ((np_roll_neg1 w).dropLast ++ [v])

/-- A sequence of ticks, each pushing one sample into the window. -/
def pushAll : List ℚ → List ℚ → Option (List ℚ)
  | w, [] => some w
  | w, v :: vs =>
    match push w v with
    | none => none
    | some w2 => pushAll w2 vs

theorem push_cons (x : ℚ) (xs : List ℚ) (v : ℚ) :
    push (x :: xs) v = some (xs ++ [v]) := by
  simp [push, np_roll_neg1, List.dropLast_concat]

theorem pushAll_length (vs : List ℚ) :
    ∀ w : List ℚ, w ≠ [] → ∃ w2, pushAll w vs = some w2 ∧ w2.length = w.length := by
  induction vs with
  | nil => intro w _; exact ⟨w, rfl, rfl⟩
  | cons v vs ih =>
    intro w hw
    match w with
    | x :: xs =>
      obtain ⟨w2, h1, h2⟩ := ih (xs ++ [v]) (by simp)
      refine ⟨w2, ?_, ?_⟩
      · simp [pushAll, push_cons, h1]
      · simp [h2]

theorem pushAll_sliding (vs : List ℚ) :
    ∀ w : List ℚ, w ≠ [] → vs.length ≤ w.length →
      pushAll w vs = some (w.drop vs.length ++ vs) := by
  induction vs with
  | nil => intro w _ _; simp [pushAll]
  | cons v vs ih =>
    intro w hw hlen
    match w with
    | x :: xs =>
      have hle : vs.length ≤ xs.length := by
        simpa using Nat.le_of_succ_le_succ hlen
      have step := ih (xs ++ [v]) (by simp) (by simp; omega)
      have hdrop : (xs ++ [v]).drop vs.length = xs.drop vs.length ++ [v] := by
        rw [List.drop_append_eq_append_drop]
        simp [Nat.sub_eq_zero_of_le hle]
      calc pushAll (x :: xs) (v :: vs)
          = pushAll (xs ++ [v]) vs := by simp [pushAll, push_cons]
        _ = some ((xs ++ [v]).drop vs.length ++ vs) := step
        _ = some ((x :: xs).drop (v :: vs).length ++ (v :: vs)) := by
            simp [hdrop]

/-- C3: for every sequence of push calls on a rolling window of any
capacity ≥ 1, each push succeeds and the length of the window after each push
(i.e. after any prefix of the sample sequence) still equals the capacity. -/
theorem window_push_preserves_length (c : ℕ) (w vs : List ℚ) (hc : 1 ≤ c)
    (hw : w.length = c) (n : ℕ) :
    ∃ w2, pushAll w (vs.take n) = some w2 ∧ w2.length = c := by
  have hne : w ≠ [] := by
    intro h; rw [h] at hw; simp at hw; omega
  obtain ⟨w2, h1, h2⟩ := pushAll_length (vs.take n) w hne
  exact ⟨w2, h1, by rw [h2, hw]⟩

/-- Witness for C3: pushing [10, 20, 30] into the all-zero window of
capacity 5 leaves the length at 5 after the second push. -/
theorem window_push_preserves_length_witness :
    ∃ w2, pushAll (List.replicate 5 (0:ℚ)) ([10, 20, 30].take 2) = some w2 ∧
      w2.length = 5 :=
  window_push_preserves_length 5 (List.replicate 5 (0:ℚ)) [10, 20, 30]
    (by decide) (by simp) 2

/-- C4: the rolling window is FIFO: pushing v1..vn (n ≤ capacity c) onto an
all-zero window of capacity c yields the window whose first c−n entries are
still zero and whose last n entries are v1..vn in order. -/
theorem window_fifo (c : ℕ) (vs : List ℚ) (hc : 1 ≤ c) (hn : vs.length ≤ c) :
    pushAll (List.replicate c (0:ℚ)) vs
      = some (List.replicate (c - vs.length) (0:ℚ) ++ vs) := by
  have hne : List.replicate c (0:ℚ) ≠ [] := by
    intro h
    have := congrArg List.length h
    simp at this
    omega
  have h := pushAll_sliding vs (List.replicate c (0:ℚ)) hne (by simpa using hn)
  simpa [List.drop_replicate] using h

/-- Witness for C4: capacity 5, initial all-zero, push sequence [10, 20, 30]
yields exactly [0, 0, 10, 20, 30]. -/
theorem window_fifo_witness :
    pushAll (List.replicate 5 (0:ℚ)) [10, 20, 30] = some [0, 0, 10, 20, 30] := by
  have h := window_fifo 5 [10, 20, 30] (by decide) (by decide)
  simpa using h

/-! ### Snapshot construction (update_process_info, src/main.py lines 100-102)

processes = [(p.info[name], p.info[cpu_percent], p.memory_info().rss / (1024 ** 2))
             for p in psutil.process_iter(attrs=[name, cpu_percent, memory_percent])
             if p.info[name] != "System Idle Process"]

The comprehension evaluates the filter condition first for each process and
only then the element expression, which performs the detail fetch
p.memory_info(); that fetch raises psutil.NoSuchProcess when the process has
exited in the meantime, and no exception handler is present, so one failing
fetch aborts the whole comprehension. -/

/-- The element expression of the comprehension for one process: the detail
fetch p.memory_info().rss followed by the division by 1024 ** 2.  none means
the fetch raised (process vanished) and the exception propagates. -/
def fetchEntry (p : RawProc) : Option ProcEntry :=
  match p.memory_info with
  | none => none
  | some rss => some ⟨p.name, p.cpu_percent, rss / 1024 ^ 2⟩

/-- The comprehension body over the (already filtered) process list: builds the
entries left to right; the first raising fetch aborts the whole list. -/
def fetchAll : List RawProc → Option (List ProcEntry)
  | [] => some []
  | p :: ps =>
    match fetchEntry p, fetchAll ps with
    | some e, some es => some (e :: es)
    | _, _ => none

/-- The whole comprehension: filter out the sentinel name, then fetch the
details of each remaining process. -/
def buildSnapshot (ps : List RawProc) : Option (List ProcEntry) :=
  fetchAll (ps.filter fun p => decide (p.name ≠ "System Idle Process"))

/-! ### Top-K ranker (update_process_info, src/main.py lines 104-107)

top_cpu_processes = sorted(processes, key=lambda x: x[1], reverse=True)[:5]
top_cpu_processes = [(name, cpu / num_cores, memory) for name, cpu, memory in top_cpu_processes]
top_memory_processes = sorted(processes, key=lambda x: x[2], reverse=True)[:5]

Python's sorted is specified as a stable sort; with reverse=True it orders by
descending key keeping tied elements in their original relative order.  That
function of the input list is embedded as insertion sort with the non-strict
descending comparison, which is stable in exactly the same way. -/

/-- sorted(l, key=key, reverse=True): stable descending sort by key. -/
def sortByDesc {α : Type} (key : α → ℚ) (l : List α) : List α :=
  List.insertionSort (fun a b => key b ≤ key a) l

/-- sorted(l, key=key, reverse=True)[:k]: the top-k slice of the stable
descending sort. -/
def rank {α : Type} (key : α → ℚ) (k : ℕ) (l : List α) : List α :=
  (sortByDesc key l).take k

/-- Lines 104-105: rank by the tuple field x[1] (raw CPU percent), then divide
each kept entry's CPU percent by the logical core count. -/
def top_cpu_processes (num_cores : ℚ) (processes : List ProcEntry) : List ProcEntry :=
  (rank (fun x => x.cpu) 5 processes).map fun x => ⟨x.name, x.cpu / num_cores, x.memory⟩

/-- Line 107: rank by the tuple field x[2] (memory in MB); entries are kept
unmodified. -/
def top_memory_processes (processes : List ProcEntry) : List ProcEntry :=
  rank (fun x => x.memory) 5 processes

/-- update_process_info (src/main.py lines 97-107) up to the label writes:
builds the snapshot and the two ranked lists.  none means the uncaught
psutil.NoSuchProcess aborted the tick. -/
def update_process_info (num_cores : ℚ) (ps : List RawProc) :
    Option (List ProcEntry × List ProcEntry) :=
  match buildSnapshot ps with
  | none => none
  | some processes =>
      some (top_cpu_processes num_cores processes, top_memory_processes processes)

/-- C1: the spec requires a transient per-entry failure of the metrics source
to be tolerated by skipping only that entry; the code instead propagates the
uncaught exception, aborting the whole tick.  At the failing input (process
chrome exits between enumeration and its memory fetch) the tick yields none
(no ranked lists at all), while the same tick without the vanished process
produces the ranked lists. -/
theorem tick_aborts_on_transient_fetch_failure :
    update_process_info 4 [⟨"python", 10, some 1048576⟩, ⟨"chrome", 20, none⟩] = none
    ∧ update_process_info 4 [⟨"python", 10, some 1048576⟩]
        = some ([⟨"python", 10 / 4, 1⟩], [⟨"python", 10, 1⟩]) := by
  constructor
  · decide
  · simp [update_process_info, buildSnapshot, fetchAll, fetchEntry,
      top_cpu_processes, top_memory_processes, rank, sortByDesc]
    norm_num

/-! ### Stability of the descending sort -/

theorem filter_orderedInsert_pos {α : Type} (key : α → ℚ) (q : ℚ) (x : α)
    (hx : key x = q) :
    ∀ l : List α,
      (List.orderedInsert (fun a b => key b ≤ key a) x l).filter
          (fun y => decide (key y = q))
        = x :: l.filter (fun y => decide (key y = q)) := by
  intro l
  induction l with
  | nil => simp [List.orderedInsert, hx]
  | cons y l ih =>
    by_cases h : key y ≤ key x
    · have hstep : List.orderedInsert (fun a b => key b ≤ key a) x (y :: l)
          = x :: y :: l := by
        simp [List.orderedInsert, h]
      rw [hstep]
      simp [hx]
    · have hstep : List.orderedInsert (fun a b => key b ≤ key a) x (y :: l)
          = y :: List.orderedInsert (fun a b => key b ≤ key a) x l := by
        simp [List.orderedInsert, h]
      have hy : ¬ key y = q := by
        intro hq
        exact h (by rw [hx, ← hq])
      rw [hstep]
      simp [hy, ih]

theorem filter_orderedInsert_neg {α : Type} (key : α → ℚ) (q : ℚ) (x : α)
    (hx : ¬ key x = q) :
    ∀ l : List α,
      (List.orderedInsert (fun a b => key b ≤ key a) x l).filter
          (fun y => decide (key y = q))
        = l.filter (fun y => decide (key y = q)) := by
  intro l
  induction l with
  | nil => simp [List.orderedInsert, hx]
  | cons y l ih =>
    by_cases h : key y ≤ key x
    · have hstep : List.orderedInsert (fun a b => key b ≤ key a) x (y :: l)
          = x :: y :: l := by
        simp [List.orderedInsert, h]
      rw [hstep]
      simp [hx]
    · have hstep : List.orderedInsert (fun a b => key b ≤ key a) x (y :: l)
          = y :: List.orderedInsert (fun a b => key b ≤ key a) x l := by
        simp [List.orderedInsert, h]
      rw [hstep]
      by_cases hy : key y = q
      · simp [hy, ih]
      · simp [hy, ih]

theorem filter_sortByDesc {α : Type} (key : α → ℚ) (q : ℚ) :
    ∀ l : List α,
      (sortByDesc key l).filter (fun y => decide (key y = q))
        = l.filter (fun y => decide (key y = q)) := by
  intro l
  induction l with
  | nil => rfl
  | cons x l ih =>
    show (List.orderedInsert _ x (sortByDesc key l)).filter _ = _
    by_cases hx : key x = q
    · rw [filter_orderedInsert_pos key q x hx, ih]
      simp [hx]
    · rw [filter_orderedInsert_neg key q x hx, ih]
      simp [hx]

/-- C5: rank key k returns the take-k slice of a list that is a permutation of
the snapshot, is sorted descending by the key, and keeps entries with any
common key value in their original snapshot order (a stable descending sort);
in particular the snapshot [(A,90,100), (B,50,500), (C,90,50)] ranked by CPU
with k = 2 yields [(A,90,100), (C,90,50)], the CPU tie broken by snapshot
order. -/
theorem rank_stable_topk :
    (∀ (l : List ProcEntry) (key : ProcEntry → ℚ) (k : ℕ),
      ∃ s : List ProcEntry,
        s.Perm l
        ∧ s.Sorted (fun a b => key b ≤ key a)
        ∧ (∀ q : ℚ, s.filter (fun y => decide (key y = q))
              = l.filter (fun y => decide (key y = q)))
        ∧ rank key k l = s.take k)
    ∧ rank (fun x : ProcEntry => x.cpu) 2
        [⟨"A", 90, 100⟩, ⟨"B", 50, 500⟩, ⟨"C", 90, 50⟩]
        = [⟨"A", 90, 100⟩, ⟨"C", 90, 50⟩] := by
  constructor
  · intro l key k
    refine ⟨sortByDesc key l, List.perm_insertionSort _ l, ?_,
      fun q => filter_sortByDesc key q l, rfl⟩
    haveI ht : IsTotal ProcEntry (fun a b => key b ≤ key a) :=
      ⟨fun a b => le_total (key b) (key a)⟩
    haveI htr : IsTrans ProcEntry (fun a b => key b ≤ key a) :=
      ⟨fun _ _ _ h1 h2 => le_trans h2 h1⟩
    exact List.sorted_insertionSort _ l
  · decide

/-- C6: the ranked list has exactly min(k, snapshot size) entries, so never
more than either bound; when k is at least the snapshot size the whole
snapshot is returned (as a permutation, no padding); the empty snapshot yields
the empty ranked list. -/
theorem rank_length_bounds :
    ∀ (key : ProcEntry → ℚ) (k : ℕ) (l : List ProcEntry),
      (rank key k l).length = min k l.length
      ∧ (l.length ≤ k → (rank key k l).Perm l)
      ∧ rank key k ([] : List ProcEntry) = [] := by
  intro key k l
  have hlen : (sortByDesc key l).length = l.length :=
    (List.perm_insertionSort _ l).length_eq
  refine ⟨?_, ?_, by simp [rank, sortByDesc]⟩
  · rw [rank, List.length_take, hlen]
  · intro hk
    have : (sortByDesc key l).length ≤ k := by rw [hlen]; exact hk
    rw [rank, List.take_of_length_le this]
    exact List.perm_insertionSort _ l

/-- Witness for C6: with k = 7 larger than the snapshot of size 3, the ranked
list is a permutation of the whole snapshot. -/
theorem rank_length_bounds_witness :
    (rank (fun x : ProcEntry => x.cpu) 7
        [⟨"A", 90, 100⟩, ⟨"B", 50, 500⟩, ⟨"C", 90, 50⟩]).Perm
      [⟨"A", 90, 100⟩, ⟨"B", 50, 500⟩, ⟨"C", 90, 50⟩] :=
  (rank_length_bounds (fun x => x.cpu) 7
      [⟨"A", 90, 100⟩, ⟨"B", 50, 500⟩, ⟨"C", 90, 50⟩]).2.1 (by decide)

/-! ### Sentinel filtering (C7) -/

theorem fetchEntry_name (p : RawProc) (e : ProcEntry) (h : fetchEntry p = some e) :
    e.name = p.name := by
  cases hm : p.memory_info with
  | none => simp [fetchEntry, hm] at h
  | some rss =>
    simp [fetchEntry, hm] at h
    rw [← h]

theorem fetchAll_mem :
    ∀ (l : List RawProc) (es : List ProcEntry), fetchAll l = some es →
      ∀ e ∈ es, ∃ p ∈ l, fetchEntry p = some e := by
  intro l
  induction l with
  | nil =>
    intro es h e he
    simp [fetchAll] at h
    subst h
    simp at he
  | cons p ps ih =>
    intro es h e he
    cases hp : fetchEntry p with
    | none =>
      cases hq : fetchAll ps with
      | none => simp [fetchAll, hp, hq] at h
      | some es2 => simp [fetchAll, hp, hq] at h
    | some e1 =>
      cases hq : fetchAll ps with
      | none => simp [fetchAll, hp, hq] at h
      | some es2 =>
        simp [fetchAll, hp, hq] at h
        subst h
        rcases List.mem_cons.mp he with he1 | he2
        · exact ⟨p, List.mem_cons_self p ps, by rw [hp, he1]⟩
        · obtain ⟨p2, hp2, hf⟩ := ih es2 hq e he2
          exact ⟨p2, List.mem_cons_of_mem _ hp2, hf⟩

theorem mem_of_mem_rank {α : Type} (key : α → ℚ) (k : ℕ) (l : List α) (x : α)
    (h : x ∈ rank key k l) : x ∈ l :=
  (List.perm_insertionSort _ l).mem_iff.mp (List.take_subset k _ h)

/-- C7: entries named with the sentinel "System Idle Process" are filtered out
of the snapshot before ranking, so whenever a tick succeeds, no entry of the
CPU-ranked list carries the sentinel name, regardless of its CPU value. -/
theorem sentinel_never_in_cpu_ranking (num_cores : ℚ) (ps : List RawProc)
    (res : List ProcEntry × List ProcEntry)
    (h : update_process_info num_cores ps = some res) :
    ∀ p ∈ res.1, p.name ≠ "System Idle Process" := by
  intro p hp
  cases hb : buildSnapshot ps with
  | none => simp [update_process_info, hb] at h
  | some processes =>
    simp [update_process_info, hb] at h
    rw [← h] at hp
    simp only [top_cpu_processes, List.mem_map] at hp
    obtain ⟨x, hx, hxp⟩ := hp
    have hxl : x ∈ processes := mem_of_mem_rank _ _ _ _ hx
    have hb2 : fetchAll (ps.filter fun q => decide (q.name ≠ "System Idle Process"))
        = some processes := hb
    obtain ⟨q, hq, hfq⟩ := fetchAll_mem _ _ hb2 x hxl
    rw [List.mem_filter] at hq
    have hname := fetchEntry_name q x hfq
    have hpx : p.name = x.name := by rw [← hxp]
    rw [hpx, hname]
    exact of_decide_eq_true hq.2

/-- Witness for C7: a tick whose enumeration contains the sentinel process
with an enormous CPU value still yields a CPU ranking without it. -/
theorem sentinel_never_in_cpu_ranking_witness :
    (⟨"chrome", 50 / 1, 2⟩ : ProcEntry).name ≠ "System Idle Process" :=
  sentinel_never_in_cpu_ranking 1
    [⟨"System Idle Process", 999, some 0⟩, ⟨"chrome", 50, some 2097152⟩]
    ([⟨"chrome", 50 / 1, 2⟩], [⟨"chrome", 50, 2⟩])
    (by
      simp [update_process_info, buildSnapshot, fetchAll, fetchEntry,
        top_cpu_processes, top_memory_processes, rank, sortByDesc]
      norm_num)
    ⟨"chrome", 50 / 1, 2⟩ (by simp)

/-! ### CPU normalization (C8)

Line 104 sorts by the raw CPU percent and line 105 divides the CPU percent of
each kept entry by num_cores.  Dividing by a positive core count is a strictly
monotone change of key, so this equals ranking the normalized snapshot by the
normalized CPU key: both the selection order and the displayed values of the
CPU list correspond to raw CPU percent divided by the core count. -/

theorem orderedInsert_map_key {α β : Type} (f : α → β) (keyA : α → ℚ) (keyB : β → ℚ)
    (hrel : ∀ a b : α, keyB (f a) ≤ keyB (f b) ↔ keyA a ≤ keyA b) (x : α) :
    ∀ l : List α,
      List.orderedInsert (fun a b => keyB b ≤ keyB a) (f x) (l.map f)
        = (List.orderedInsert (fun a b => keyA b ≤ keyA a) x l).map f := by
  intro l
  induction l with
  | nil => simp [List.orderedInsert]
  | cons y l ih =>
    by_cases h : keyA y ≤ keyA x
    · have h1 : List.orderedInsert (fun a b => keyB b ≤ keyB a) (f x) (f y :: l.map f)
          = f x :: f y :: l.map f := by
        simp only [List.orderedInsert]
        rw [if_pos ((hrel y x).mpr h)]
      have h2 : List.orderedInsert (fun a b => keyA b ≤ keyA a) x (y :: l)
          = x :: y :: l := by
        simp [List.orderedInsert, h]
      rw [List.map_cons, h1, h2, List.map_cons, List.map_cons]
    · have h1 : List.orderedInsert (fun a b => keyB b ≤ keyB a) (f x) (f y :: l.map f)
          = f y :: List.orderedInsert (fun a b => keyB b ≤ keyB a) (f x) (l.map f) := by
        simp only [List.orderedInsert]
        rw [if_neg (fun hc => h ((hrel y x).mp hc))]
      have h2 : List.orderedInsert (fun a b => keyA b ≤ keyA a) x (y :: l)
          = y :: List.orderedInsert (fun a b => keyA b ≤ keyA a) x l := by
        simp [List.orderedInsert, h]
      rw [List.map_cons, h1, h2, List.map_cons, ih]

theorem sortByDesc_map_key {α β : Type} (f : α → β) (keyA : α → ℚ) (keyB : β → ℚ)
    (hrel : ∀ a b : α, keyB (f a) ≤ keyB (f b) ↔ keyA a ≤ keyA b) :
    ∀ l : List α, sortByDesc keyB (l.map f) = (sortByDesc keyA l).map f := by
  intro l
  induction l with
  | nil => rfl
  | cons x l ih =>
    show List.orderedInsert _ (f x) (sortByDesc keyB (l.map f))
        = (List.orderedInsert _ x (sortByDesc keyA l)).map f
    rw [ih, orderedInsert_map_key f keyA keyB hrel]

theorem rank_map_key {α β : Type} (f : α → β) (keyA : α → ℚ) (keyB : β → ℚ)
    (hrel : ∀ a b : α, keyB (f a) ≤ keyB (f b) ↔ keyA a ≤ keyA b)
    (k : ℕ) (l : List α) :
    rank keyB k (l.map f) = (rank keyA k l).map f := by
  rw [rank, rank, sortByDesc_map_key f keyA keyB hrel, List.map_take]

/-- C8: whenever the snapshot construction of a tick succeeds, the tick ranks
twice: its CPU list equals the rank of the cpu-normalized snapshot by the
normalized CPU key (selection order and displayed CPU values both correspond
to raw CPU percent divided by the positive logical core count), and its memory
list equals the rank of the snapshot by memory usage, whose entries - in
particular their CPU fields - are unmodified elements of the snapshot. -/
theorem cpu_ranking_normalized (num_cores : ℚ) (hn : 0 < num_cores)
    (ps : List RawProc) (snapshot : List ProcEntry)
    (hs : buildSnapshot ps = some snapshot) :
    update_process_info num_cores ps
      = some (rank (fun x : ProcEntry => x.cpu) 5
                (snapshot.map fun x => ⟨x.name, x.cpu / num_cores, x.memory⟩),
              rank (fun x : ProcEntry => x.memory) 5 snapshot)
    ∧ ∀ p ∈ top_memory_processes snapshot, p ∈ snapshot := by
  constructor
  · have hrel : ∀ a b : ProcEntry,
        (fun x : ProcEntry => x.cpu)
            ((fun x : ProcEntry => ⟨x.name, x.cpu / num_cores, x.memory⟩) a)
          ≤ (fun x : ProcEntry => x.cpu)
            ((fun x : ProcEntry => ⟨x.name, x.cpu / num_cores, x.memory⟩) b)
          ↔ (fun x : ProcEntry => x.cpu) a ≤ (fun x : ProcEntry => x.cpu) b :=
      fun a b => div_le_div_iff_of_pos_right hn
    have hmap := rank_map_key
      (fun x : ProcEntry => ⟨x.name, x.cpu / num_cores, x.memory⟩)
      (fun x : ProcEntry => x.cpu) (fun x : ProcEntry => x.cpu) hrel 5 snapshot
    simp [update_process_info, hs, hmap, top_cpu_processes, top_memory_processes]
  · intro p hp
    exact mem_of_mem_rank _ _ _ _ hp

/-- Witness for C8: a concrete successful tick with two cores. -/
theorem cpu_ranking_normalized_witness :
    update_process_info 2 [⟨"a", 10, some 1048576⟩]
      = some (rank (fun x : ProcEntry => x.cpu) 5
                ([(⟨"a", 10, 1⟩ : ProcEntry)].map
                  fun x => ⟨x.name, x.cpu / 2, x.memory⟩),
              rank (fun x : ProcEntry => x.memory) 5 [⟨"a", 10, 1⟩]) :=
  (cpu_ranking_normalized 2 (by norm_num) [⟨"a", 10, some 1048576⟩]
    [⟨"a", 10, 1⟩]
    (by
      simp [buildSnapshot, fetchAll, fetchEntry]
      norm_num)).1

/-! ### Static system descriptor: GPU name (SystemMonitorApp.__init__, lines 23-28)

try:
    (the import of GPUtil)
    gpus = GPUtil.getGPUs()
    self.gpu_name = gpus[0].name if gpus else "GPU: Not found"
except ImportError:
    self.gpu_name = "GPU: not supported"

Only ImportError is caught; any other exception raised by the query
propagates out of the constructor. -/

/-- Outcome of the GPU query at startup. -/
inductive GpuQuery : Type
  /-- Importing GPUtil raises ImportError: the optional capability is absent. -/
  | importError : GpuQuery
  /-- GPUtil.getGPUs() raises an exception that is not an ImportError. -/
  | raised : GpuQuery
  /-- GPUtil.getGPUs() returns a list of GPUs, given here by name. -/
  | gpus (names : List String) : GpuQuery
deriving DecidableEq

/-- The value stored in self.gpu_name; none means the exception escaped the
constructor (no sentinel is stored, startup aborts). -/
def init_gpu_name : GpuQuery → Option String
  | .importError => some "GPU: not supported"
  | .raised => none
  | .gpus [] => some "GPU: Not found"
  | .gpus (g :: _) => some g

/-- Counterexample to C2 as stated: when the GPU query capability throws a
non-import exception at startup, the GPU field is never set to the sentinel;
the exception propagates instead. -/
theorem gpu_sentinel_counterexample :
    init_gpu_name GpuQuery.raised = none
    ∧ init_gpu_name GpuQuery.raised ≠ some "GPU: not supported" := by
  decide

/-- C2 (amended): when the GPU query capability is unavailable (its import
fails), the cached GPU field equals the fixed sentinel "GPU: not supported"
and no error is surfaced; when the capability is present but reports no GPUs,
the distinct sentinel "GPU: Not found" is stored. -/
theorem gpu_sentinel_on_unavailable :
    init_gpu_name GpuQuery.importError = some "GPU: not supported"
    ∧ init_gpu_name (GpuQuery.gpus []) = some "GPU: Not found" := by
  decide

/-! ### Static system descriptor: CPU name (get_cpu_name, src/main.py lines 32-51)

Windows branch: subprocess.check_output("wmic cpu get name") inside
try/except subprocess.CalledProcessError; the output is split on newlines,
each line stripped, empty lines dropped, and lines[1] returned when at least
two remain, else "Unknown CPU".  Linux branch: open("/proc/cpuinfo") inside
try/except FileNotFoundError; the first line containing "model name" yields
line.split(":")[1].strip(); if no line matches, control falls through to the
final return "Unknown CPU".  Any other platform returns "Unknown CPU".

String primitives used by both branches are embedded over the character
lists underlying the strings. -/

/-- The whitespace set removed by Python str.strip(). -/
def isPythonSpace (c : Char) : Bool :=
  c = ' ' || c = '\t' || c = '\n' || c = '\r' || c = '\x0b' || c = '\x0c'

/-- str.strip(): drop leading and trailing whitespace. -/
def trimChars (l : List Char) : List Char :=
  ((l.dropWhile isPythonSpace).reverse.dropWhile isPythonSpace).reverse

/-- str.split(sep) for a one-character separator: split at every occurrence. -/
def splitOnChar (c : Char) : List Char → List (List Char)
  | [] => [[]]
  | x :: xs =>
    match splitOnChar c xs with
    | [] => [[]]
    | y :: ys => if x = c then [] :: y :: ys else (x :: y) :: ys

/-- The Python substring test (sub in s). -/
def containsSub : List Char → List Char → Bool
  | [], pat => pat.isEmpty
  | x :: xs, pat => pat.isPrefixOf (x :: xs) || containsSub xs pat

/-- sub in s, on Lean strings. -/
def strContains (s pat : String) : Bool := containsSub s.data pat.data

/-- Outcome of subprocess.check_output("wmic cpu get name"). -/
inductive WmicResult : Type
  /-- The command ran and printed s. -/
  | output (s : String)
  /-- The command exited nonzero: subprocess.CalledProcessError (caught). -/
  | calledProcessError : WmicResult
  /-- The wmic binary is absent: check_output raises FileNotFoundError,
  which the except clause of the Windows branch does not name. -/
  | fileNotFoundError : WmicResult
deriving DecidableEq

/-- lines = [line.strip() for line in output.split("\n") if line.strip()] -/
def stripLines (s : String) : List String :=
  (((splitOnChar '\n' s.data).map trimChars).filter
    (fun l => !l.isEmpty)).map List.asString

/-- The Windows branch of get_cpu_name; none means an uncaught exception. -/
def get_cpu_name_windows : WmicResult → Option String
  | .output s =>
    if 1 < (stripLines s).length then some ((stripLines s).getD 1 "")
    else some "Unknown CPU"
  | .calledProcessError => some "Unknown CPU"
  | .fileNotFoundError => none

/-- Outcome of open("/proc/cpuinfo", "r"). -/
inductive CpuinfoResult : Type
  /-- The file opened; its lines follow. -/
  | content (lines : List String)
  /-- The file is absent: FileNotFoundError (caught). -/
  | fileNotFoundError : CpuinfoResult
  /-- Another error, e.g. PermissionError, which the except clause of the
  Linux branch does not name. -/
  | otherError : CpuinfoResult
deriving DecidableEq

/-- line.split(":")[1].strip(); none models the IndexError raised when the
line has no colon. -/
def parse_model_line (line : String) : Option String :=
  match splitOnChar ':' line.data with
  | _ :: second :: _ => some (trimChars second).asString
  | _ => none

/-- The for loop over the file: the first line containing "model name" is
parsed and returned.  some none: no line matched, the loop ends and control
falls through; none: the parse raised an uncaught IndexError. -/
def scan_cpuinfo : List String → Option (Option String)
  | [] => some none
  | line :: rest =>
    if strContains line "model name" then
      match parse_model_line line with
      | some v => some (some v)
      | none => none
    else scan_cpuinfo rest

/-- The Linux branch of get_cpu_name; none means an uncaught exception. -/
def get_cpu_name_linux : CpuinfoResult → Option String
  | .content lines =>
    match scan_cpuinfo lines with
    | some (some name) => some name
    | some none => some "Unknown CPU"
    | none => none
  | .fileNotFoundError => some "Unknown CPU"
  | .otherError => none

/-- platform.system() together with the outcome of the lookup it selects. -/
inductive PlatformCase : Type
  | windows (r : WmicResult)
  | linux (r : CpuinfoResult)
  | other : PlatformCase
deriving DecidableEq

/-- get_cpu_name (src/main.py lines 32-51); none means the lookup raised an
exception to its caller. -/
def get_cpu_name : PlatformCase → Option String
  | .windows r => get_cpu_name_windows r
  | .linux r => get_cpu_name_linux r
  | .other => some "Unknown CPU"

/-- Counterexample to C9 as stated: a lookup failure of a kind not named by
the except clause (the wmic binary being absent on Windows) does not yield
the sentinel; the error propagates to the caller. -/
theorem cpu_name_counterexample :
    get_cpu_name (PlatformCase.windows WmicResult.fileNotFoundError) = none
    ∧ get_cpu_name (PlatformCase.windows WmicResult.fileNotFoundError)
        ≠ some "Unknown CPU" := by
  decide

theorem scan_cpuinfo_no_match :
    ∀ lines : List String, (∀ l ∈ lines, strContains l "model name" = false) →
      scan_cpuinfo lines = some none := by
  intro lines
  induction lines with
  | nil => intro _; rfl
  | cons line rest ih =>
    intro h
    have h1 : strContains line "model name" = false := h line (List.mem_cons_self _ _)
    show scan_cpuinfo (line :: rest) = some none
    rw [scan_cpuinfo, h1]
    simp only [Bool.false_eq_true, if_false]
    exact ih fun l hl => h l (List.mem_cons_of_mem _ hl)

/-- C9 (amended): the lookup returns the sentinel "Unknown CPU" exactly on the
failures its handlers name or its fallthrough covers: a nonzero exit of the
Windows OS query, a query output with at most one nonempty line, a missing
cpuinfo file on Linux, a cpuinfo with no model name line, and an unrecognized
platform.  Failures of other kinds (missing query binary, unreadable file,
malformed model name line) propagate to the caller instead. -/
theorem cpu_name_sentinel_on_handled_failures :
    get_cpu_name (PlatformCase.windows WmicResult.calledProcessError)
        = some "Unknown CPU"
    ∧ (∀ s : String, (stripLines s).length ≤ 1 →
        get_cpu_name (PlatformCase.windows (WmicResult.output s))
          = some "Unknown CPU")
    ∧ get_cpu_name (PlatformCase.linux CpuinfoResult.fileNotFoundError)
        = some "Unknown CPU"
    ∧ (∀ lines : List String, (∀ l ∈ lines, strContains l "model name" = false) →
        get_cpu_name (PlatformCase.linux (CpuinfoResult.content lines))
          = some "Unknown CPU")
    ∧ get_cpu_name PlatformCase.other = some "Unknown CPU" := by
  refine ⟨rfl, ?_, rfl, ?_, rfl⟩
  · intro s hs
    have : ¬ 1 < (stripLines s).length := by omega
    simp [get_cpu_name, get_cpu_name_windows, this]
  · intro lines hl
    simp [get_cpu_name, get_cpu_name_linux, scan_cpuinfo_no_match lines hl]

/-- Witness for the amended C9: an empty query output and a cpuinfo without a
model name line both yield the sentinel. -/
theorem cpu_name_sentinel_on_handled_failures_witness :
    get_cpu_name (PlatformCase.windows (WmicResult.output "")) = some "Unknown CPU"
    ∧ get_cpu_name (PlatformCase.linux (CpuinfoResult.content ["processor : 0"]))
        = some "Unknown CPU" :=
  ⟨cpu_name_sentinel_on_handled_failures.2.1 "" (by decide),
   cpu_name_sentinel_on_handled_failures.2.2.2.1 ["processor : 0"] (by decide)⟩

/-! ### Label update loop (initUI lines 72-73, update_process_info lines 109-115)

self.process_labels_cpu = [QLabel("-------------") for _ in range(5)]
and the same for process_labels_memory; on each tick,
for i, (name, cpu, memory) in enumerate(top_cpu_processes):
    if i < len(self.process_labels_cpu):
        self.process_labels_cpu[i].setText(...)
and the analogous loop for the memory labels.  The loop is modelled on the
label texts; the enumerate counter starts at 0 and each formatted entry is
written to the label slot with its index, subject to the bound check. -/

/-- The 5 placeholder texts the labels are created with in initUI. -/
def initial_labels : List String := List.replicate 5 "-------------"

/-- The loop body from the counter value i on: write each entry text to the
label slot with its index when that index is within the label list. -/
def setTextsFrom : List String → ℕ → List String → List String
  | labels, _, [] => labels
  | labels, i, t :: ts =>
    setTextsFrom (if i < labels.length then labels.set i t else labels) (i + 1) ts

/-- The whole per-tick label update: enumerate starts at 0. -/
def set_process_labels (labels texts : List String) : List String :=
  setTextsFrom labels 0 texts

theorem setTextsFrom_untouched :
    ∀ (ts labels : List String) (i j : ℕ), j < i ∨ i + ts.length ≤ j →
      (setTextsFrom labels i ts)[j]? = labels[j]? := by
  intro ts
  induction ts with
  | nil => intro labels i j _; rfl
  | cons t ts ih =>
    intro labels i j h
    have hij : i ≠ j := by
      simp only [List.length_cons] at h
      omega
    show (setTextsFrom (if i < labels.length then labels.set i t else labels)
        (i + 1) ts)[j]? = labels[j]?
    rw [ih _ (i + 1) j (by simp only [List.length_cons] at h ⊢; omega)]
    by_cases hlen : i < labels.length
    · rw [if_pos hlen]
      exact List.getElem?_set_ne hij
    · rw [if_neg hlen]

theorem setTextsFrom_written :
    ∀ (ts labels : List String) (i j : ℕ), i + ts.length ≤ labels.length →
      i ≤ j → j < i + ts.length →
      (setTextsFrom labels i ts)[j]? = ts[j - i]? := by
  intro ts
  induction ts with
  | nil =>
    intro labels i j _ h1 h2
    simp only [List.length_nil] at h2
    omega
  | cons t ts ih =>
    intro labels i j hcap h1 h2
    have hlen : i < labels.length := by
      simp only [List.length_cons] at hcap
      omega
    show (setTextsFrom (if i < labels.length then labels.set i t else labels)
        (i + 1) ts)[j]? = (t :: ts)[j - i]?
    rw [if_pos hlen]
    by_cases hji : j = i
    · subst hji
      rw [setTextsFrom_untouched ts _ (j + 1) j (Or.inl (by omega))]
      rw [List.getElem?_set_eq_of_lt t hlen]
      simp
    · have hstep := ih (labels.set i t) (i + 1) j
        (by simp only [List.length_cons] at hcap; simp [List.length_set]; omega)
        (by omega) (by simp only [List.length_cons] at h2; omega)
      rw [hstep]
      have hsub : j - i = (j - (i + 1)) + 1 := by omega
      rw [hsub]
      simp

/-- C10: when the ranked list holds fewer entries than there are label slots,
the tick overwrites exactly the first entries-many labels with the entry
texts; every label slot at an index at or beyond the ranked list length keeps
its previous text (initially the dashes placeholder), i.e. the update never
clears labels beyond the ranked list. -/
theorem labels_beyond_ranked_list_unchanged (labels texts : List String)
    (h : texts.length ≤ labels.length) (j : ℕ) :
    (j < texts.length → (set_process_labels labels texts)[j]? = texts[j]?)
    ∧ (texts.length ≤ j → (set_process_labels labels texts)[j]? = labels[j]?) := by
  constructor
  · intro hj
    have hw := setTextsFrom_written texts labels 0 j (by omega) (by omega) (by omega)
    simpa [set_process_labels] using hw
  · intro hj
    have hu := setTextsFrom_untouched texts labels 0 j (Or.inr (by omega))
    simpa [set_process_labels] using hu

/-- Witness for C10: a tick with a single ranked entry leaves the fourth of
the five freshly initialized labels at its placeholder text. -/
theorem labels_beyond_ranked_list_unchanged_witness :
    (set_process_labels initial_labels ["chrome: CPU 1.00%"])[3]?
      = initial_labels[3]? :=
  (labels_beyond_ranked_list_unchanged initial_labels ["chrome: CPU 1.00%"]
    (by decide) 3).2 (by decide)
